import Mathlib

/-
  Verification development for the repository composition and resolution
  engine of lsst.daf.persistence (files repository.py, posixStorage.py,
  cfg.py).  Each definition is a shallow embedding of the corresponding
  Python entity; the doc comment on a definition names its source.
-/

set_option autoImplicit false

namespace DafPersistence

/-- A Python value as returned by the per-repository operations that the
recursion helpers of Repository (doParents, doSelfAndPeers) combine.
Operations either return a sequence (a Python list, which `ret.extend`
flattens) or some other non-sequence object (which `ret.extend` rejects
with TypeError, so it is appended whole).  `val` stands for an opaque
non-sequence object such as a ButlerLocation. -/
inductive PyObj where
  | val (n : Nat)
  | list (xs : List PyObj)

/-- The two supported values of the Repository parentJoin attribute
(Repository._supportedParentJoin in repository.py). -/
inductive Join where
  | left
  | outer
deriving DecidableEq

/-- A materialized Repository graph node for the traversal primitives:
its identity (used to address the per-node outcome of an operation),
its parentJoin attribute, its ordered parents and its ordered peers
(Repository.__init__ fields _parentJoin, _parents, _peers).  The mapper
and access members are abstracted into the operation function
f : Nat -> Option PyObj giving the outcome of the operation (for
example Repository.doMap) on the node with a given identity. -/
inductive Repo where
  | node (rid : Nat) (parentJoin : Join) (parents : List Repo) (peers : List Repo)

/-- Identity of a node. -/
def Repo.rid : Repo → Nat
  | .node i _ _ _ => i

/-- The parentJoin attribute of a node. -/
def Repo.parentJoin : Repo → Join
  | .node _ j _ _ => j

/-- The ordered parents of a node. -/
def Repo.parents : Repo → List Repo
  | .node _ _ ps _ => ps

/-- The ordered peers of a node. -/
def Repo.peers : Repo → List Repo
  | .node _ _ _ qs => qs

mutual

/-- Embeds Repository.doParents (repository.py lines 240-277).  For each
parent in declared order: evaluate the operation on the parent; if that
returned None, recurse into the parent with parent.doParents (which uses
the parent's own parentJoin); if the combined result is not None, under
left join return it at once, under outer join append it to the running
list; at the end return None when the list is empty, else the list. -/
def doParents (f : Nat → Option PyObj) : Repo → Option PyObj
  | .node _ j ps _ => doParentsLoop f j ps []

/-- The loop of Repository.doParents over self._parents, with the running
result list ret. -/
def doParentsLoop (f : Nat → Option PyObj) (j : Join) : List Repo → List PyObj → Option PyObj
  | [], ret => if ret.isEmpty then none else some (.list ret)
  | p :: rest, ret =>
    match (match f p.rid with
           | some res => some res
           | none => doParents f p) with
    | none => doParentsLoop f j rest ret
    | some res =>
      match j with
      | .left => some res
      | .outer => doParentsLoop f j rest (ret ++ [res])

end

mutual

/-- Instrumented form of doParents: the first component is the value the
Python function returns, the second records, in evaluation order, the
identities of the nodes on which the operation func was evaluated.  It
performs exactly the evaluations of doParents. -/
def doParentsT (f : Nat → Option PyObj) : Repo → Option PyObj × List Nat
  | .node _ j ps _ => doParentsLoopT f j ps []

/-- Instrumented form of doParentsLoop. -/
def doParentsLoopT (f : Nat → Option PyObj) (j : Join) : List Repo → List PyObj → Option PyObj × List Nat
  | [], ret => (if ret.isEmpty then none else some (.list ret), [])
  | p :: rest, ret =>
    match f p.rid with
    | some res =>
      match j with
      | .left => (some res, [p.rid])
      | .outer =>
        let t := doParentsLoopT f j rest (ret ++ [res])
        (t.1, p.rid :: t.2)
    | none =>
      let s := doParentsT f p
      match s.1 with
      | some res =>
        match j with
        | .left => (some res, p.rid :: s.2)
        | .outer =>
          let t := doParentsLoopT f j rest (ret ++ [res])
          (t.1, p.rid :: (s.2 ++ t.2))
      | none =>
        let t := doParentsLoopT f j rest ret
        (t.1, p.rid :: (s.2 ++ t.2))

end

/-- One accumulation step of Repository.doSelfAndPeers: a None result is
skipped; ret.extend(res) flattens a sequence result element-wise; on any
other object extend raises TypeError and the code appends it whole. -/
def accumResult (ret : List PyObj) : Option PyObj → List PyObj
  | none => ret
  | some (.list xs) => ret ++ xs
  | some v => ret ++ [v]

/-- The nodes doSelfAndPeers addresses: self first, then every peer in
declared order. -/
def selfAndPeersIds (r : Repo) : List Nat :=
  r.rid :: r.peers.map Repo.rid

/-- Embeds Repository.doSelfAndPeers (repository.py lines 212-238):
evaluate func on self and then on each peer in declared order,
accumulating with accumResult; if the accumulator ends empty return
None, else the accumulated list. -/
def doSelfAndPeers (f : Nat → Option PyObj) (r : Repo) : Option PyObj :=
  let ret := (selfAndPeersIds r).foldl (fun ret i => accumResult ret (f i)) []
  if ret.isEmpty then none else some (.list ret)

/-- Instrumented form of doSelfAndPeers: doSelfAndPeers evaluates func on
self and on every peer unconditionally, so its evaluation trace is
selfAndPeersIds. -/
def doSelfAndPeersT (f : Nat → Option PyObj) (r : Repo) : Option PyObj × List Nat :=
  (doSelfAndPeers f r, selfAndPeersIds r)

/-- Embeds Repository.map (repository.py lines 315-331).  The write flag
models kwargs: kwWrite = none when the key "write" is absent, some b when
present with boolean value b.  The dispatch is the source condition
(write in kwargs and kwargs[write] is True): peer fan-out exactly when
the flag is present and True, parent search otherwise. -/
def Repo.mapOp (kwWrite : Option Bool) (f : Nat → Option PyObj) (r : Repo) : Option PyObj :=
  match kwWrite with
  | some true => doSelfAndPeers f r
  | _ => doParents f r

/-- Instrumented form of Repo.mapOp. -/
def Repo.mapOpT (kwWrite : Option Bool) (f : Nat → Option PyObj) (r : Repo) : Option PyObj × List Nat :=
  match kwWrite with
  | some true => doSelfAndPeersT f r
  | _ => doParentsT f r

mutual

/-- The candidates of a parent search from a node, in the depth-first
declared order the engine uses: each parent, then that parent's
ancestors, before the next sibling parent.  (The node itself is not a
candidate: doParents only addresses parents.) -/
def searchOrder : Repo → List Nat
  | .node _ _ ps _ => searchOrderList ps

/-- Depth-first candidate order over a declared parent list. -/
def searchOrderList : List Repo → List Nat
  | [] => []
  | p :: rest => p.rid :: (searchOrder p ++ searchOrderList rest)

end

/-- First non-None outcome of f along a candidate list. -/
def firstHit (f : Nat → Option PyObj) : List Nat → Option PyObj
  | [] => none
  | i :: rest =>
    match f i with
    | some v => some v
    | none => firstHit f rest

/-- The prefix of a candidate list that a short-circuiting search
evaluates: every candidate up to and including the first one with a
non-None outcome, or the whole list when there is none. -/
def visitedUpTo (f : Nat → Option PyObj) : List Nat → List Nat
  | [] => []
  | i :: rest =>
    match f i with
    | some _ => [i]
    | none => i :: visitedUpTo f rest

mutual

/-- True when this node and every node of its parent subgraph has
parentJoin left, the precondition of a pure left-join search. -/
def allLeft : Repo → Bool
  | .node _ j ps _ =>
    match j with
    | .left => allLeftList ps
    | .outer => false

/-- allLeft over a parent list. -/
def allLeftList : List Repo → Bool
  | [] => true
  | p :: rest => allLeft p && allLeftList rest

end

mutual

/-- Size of the parent subgraph of a node, the induction measure for the
parent-search lemmas (peers are never descended into by doParents). -/
def Repo.psize : Repo → Nat
  | .node _ _ ps _ => psizeList ps + 1

/-- Repo.psize over a list. -/
def psizeList : List Repo → Nat
  | [] => 0
  | p :: rest => p.psize + psizeList rest + 1

end

end DafPersistence

namespace DafPersistence

theorem psizeList_cons (p : Repo) (rest : List Repo) :
    psizeList (p :: rest) = p.psize + psizeList rest + 1 := rfl

theorem psize_node (i : Nat) (j : Join) (ps qs : List Repo) :
    (Repo.node i j ps qs).psize = psizeList ps + 1 := rfl

theorem doParentsLoop_nil (f : Nat → Option PyObj) (j : Join) (ret : List PyObj) :
    doParentsLoop f j [] ret = (if ret.isEmpty then none else some (.list ret)) := rfl

theorem doParentsLoop_cons_hit_left (f : Nat → Option PyObj) (p : Repo) (rest : List Repo)
    (ret : List PyObj) (res : PyObj) (h : f p.rid = some res) :
    doParentsLoop f .left (p :: rest) ret = some res := by
  simp only [doParentsLoop, h]

theorem doParentsLoop_cons_hit_outer (f : Nat → Option PyObj) (p : Repo) (rest : List Repo)
    (ret : List PyObj) (res : PyObj) (h : f p.rid = some res) :
    doParentsLoop f .outer (p :: rest) ret = doParentsLoop f .outer rest (ret ++ [res]) := by
  simp only [doParentsLoop, h]

theorem doParentsLoop_cons_rec_left (f : Nat → Option PyObj) (p : Repo) (rest : List Repo)
    (ret : List PyObj) (res : PyObj) (h : f p.rid = none) (h2 : doParents f p = some res) :
    doParentsLoop f .left (p :: rest) ret = some res := by
  simp only [doParentsLoop, h, h2]

theorem doParentsLoop_cons_rec_outer (f : Nat → Option PyObj) (p : Repo) (rest : List Repo)
    (ret : List PyObj) (res : PyObj) (h : f p.rid = none) (h2 : doParents f p = some res) :
    doParentsLoop f .outer (p :: rest) ret = doParentsLoop f .outer rest (ret ++ [res]) := by
  simp only [doParentsLoop, h, h2]

theorem doParentsLoop_cons_none (f : Nat → Option PyObj) (j : Join) (p : Repo) (rest : List Repo)
    (ret : List PyObj) (h : f p.rid = none) (h2 : doParents f p = none) :
    doParentsLoop f j (p :: rest) ret = doParentsLoop f j rest ret := by
  simp only [doParentsLoop, h, h2]

end DafPersistence

namespace DafPersistence

theorem doParentsLoopT_nil (f : Nat → Option PyObj) (j : Join) (ret : List PyObj) :
    doParentsLoopT f j [] ret = ((if ret.isEmpty then none else some (.list ret)), []) := rfl

theorem doParentsLoopT_cons_hit_left (f : Nat → Option PyObj) (p : Repo) (rest : List Repo)
    (ret : List PyObj) (res : PyObj) (h : f p.rid = some res) :
    doParentsLoopT f .left (p :: rest) ret = (some res, [p.rid]) := by
  simp only [doParentsLoopT, h]

theorem doParentsLoopT_cons_hit_outer (f : Nat → Option PyObj) (p : Repo) (rest : List Repo)
    (ret : List PyObj) (res : PyObj) (h : f p.rid = some res) :
    doParentsLoopT f .outer (p :: rest) ret =
      ((doParentsLoopT f .outer rest (ret ++ [res])).1,
       p.rid :: (doParentsLoopT f .outer rest (ret ++ [res])).2) := by
  simp only [doParentsLoopT, h]

theorem doParentsLoopT_cons_rec_left (f : Nat → Option PyObj) (p : Repo) (rest : List Repo)
    (ret : List PyObj) (res : PyObj) (h : f p.rid = none) (h2 : (doParentsT f p).1 = some res) :
    doParentsLoopT f .left (p :: rest) ret = (some res, p.rid :: (doParentsT f p).2) := by
  simp only [doParentsLoopT, h, h2]

theorem doParentsLoopT_cons_rec_outer (f : Nat → Option PyObj) (p : Repo) (rest : List Repo)
    (ret : List PyObj) (res : PyObj) (h : f p.rid = none) (h2 : (doParentsT f p).1 = some res) :
    doParentsLoopT f .outer (p :: rest) ret =
      ((doParentsLoopT f .outer rest (ret ++ [res])).1,
       p.rid :: ((doParentsT f p).2 ++ (doParentsLoopT f .outer rest (ret ++ [res])).2)) := by
  simp only [doParentsLoopT, h, h2]

theorem doParentsLoopT_cons_none (f : Nat → Option PyObj) (j : Join) (p : Repo) (rest : List Repo)
    (ret : List PyObj) (h : f p.rid = none) (h2 : (doParentsT f p).1 = none) :
    doParentsLoopT f j (p :: rest) ret =
      ((doParentsLoopT f j rest ret).1,
       p.rid :: ((doParentsT f p).2 ++ (doParentsLoopT f j rest ret).2)) := by
  simp only [doParentsLoopT, h, h2]

theorem doParentsT_node (f : Nat → Option PyObj) (i : Nat) (j : Join) (ps qs : List Repo) :
    doParentsT f (.node i j ps qs) = doParentsLoopT f j ps [] := rfl

theorem doParents_node (f : Nat → Option PyObj) (i : Nat) (j : Join) (ps qs : List Repo) :
    doParents f (.node i j ps qs) = doParentsLoop f j ps [] := rfl

end DafPersistence

namespace DafPersistence

theorem doParentsLoopT_fst (f : Nat → Option PyObj) :
    ∀ (n : Nat) (j : Join) (ps : List Repo) (ret : List PyObj), psizeList ps ≤ n →
      (doParentsLoopT f j ps ret).1 = doParentsLoop f j ps ret := by
  intro n
  induction n with
  | zero =>
    intro j ps ret h
    cases ps with
    | nil => rfl
    | cons p rest => simp [psizeList_cons] at h
  | succ n ih =>
    intro j ps ret h
    cases ps with
    | nil => rfl
    | cons p rest =>
      rw [psizeList_cons] at h
      have hrest : psizeList rest ≤ n := by omega
      have hpT : (doParentsT f p).1 = doParents f p := by
        cases p with
        | node i j2 pps qs =>
          rw [doParentsT_node, doParents_node]
          apply ih
          have : psizeList pps + 1 ≤ n + 1 := by
            rw [psize_node] at h; omega
          omega
      cases hf : f p.rid with
      | some res =>
        cases j with
        | left => rw [doParentsLoopT_cons_hit_left f p rest ret res hf,
                      doParentsLoop_cons_hit_left f p rest ret res hf]
        | outer => rw [doParentsLoopT_cons_hit_outer f p rest ret res hf,
                       doParentsLoop_cons_hit_outer f p rest ret res hf]
                   exact ih .outer rest (ret ++ [res]) hrest
      | none =>
        cases hr : doParents f p with
        | some res =>
          have h2 : (doParentsT f p).1 = some res := by rw [hpT, hr]
          cases j with
          | left => rw [doParentsLoopT_cons_rec_left f p rest ret res hf h2,
                        doParentsLoop_cons_rec_left f p rest ret res hf hr]
          | outer => rw [doParentsLoopT_cons_rec_outer f p rest ret res hf h2,
                         doParentsLoop_cons_rec_outer f p rest ret res hf hr]
                     exact ih .outer rest (ret ++ [res]) hrest
        | none =>
          have h2 : (doParentsT f p).1 = none := by rw [hpT, hr]
          rw [doParentsLoopT_cons_none f j p rest ret hf h2,
              doParentsLoop_cons_none f j p rest ret hf hr]
          exact ih j rest ret hrest

theorem doParentsT_fst (f : Nat → Option PyObj) (r : Repo) :
    (doParentsT f r).1 = doParents f r := by
  cases r with
  | node i j ps qs =>
    rw [doParentsT_node, doParents_node]
    exact doParentsLoopT_fst f (psizeList ps) j ps [] (Nat.le_refl _)

end DafPersistence

namespace DafPersistence

theorem firstHit_append (f : Nat → Option PyObj) (xs ys : List Nat) :
    firstHit f (xs ++ ys) =
      (match firstHit f xs with
       | some v => some v
       | none => firstHit f ys) := by
  induction xs with
  | nil => rfl
  | cons i rest ih =>
    simp only [List.cons_append, firstHit]
    cases f i <;> simp [ih]

theorem visitedUpTo_of_none (f : Nat → Option PyObj) (xs : List Nat)
    (h : firstHit f xs = none) : visitedUpTo f xs = xs := by
  induction xs with
  | nil => rfl
  | cons i rest ih =>
    simp only [firstHit] at h
    cases hf : f i with
    | some v => rw [hf] at h; simp at h
    | none =>
      rw [hf] at h
      simp only [visitedUpTo, hf]
      simp [ih h]

theorem visitedUpTo_append_none (f : Nat → Option PyObj) (xs ys : List Nat)
    (h : firstHit f xs = none) :
    visitedUpTo f (xs ++ ys) = xs ++ visitedUpTo f ys := by
  induction xs with
  | nil => rfl
  | cons i rest ih =>
    simp only [firstHit] at h
    cases hf : f i with
    | some v => rw [hf] at h; simp at h
    | none =>
      rw [hf] at h
      simp only [List.cons_append, visitedUpTo, hf, List.append_eq]
      simp [ih h]

theorem visitedUpTo_append_some (f : Nat → Option PyObj) (xs ys : List Nat) (v : PyObj)
    (h : firstHit f xs = some v) :
    visitedUpTo f (xs ++ ys) = visitedUpTo f xs := by
  induction xs with
  | nil => simp [firstHit] at h
  | cons i rest ih =>
    simp only [firstHit] at h
    cases hf : f i with
    | some w =>
      simp only [List.cons_append, visitedUpTo, hf]
    | none =>
      rw [hf] at h
      simp only [List.cons_append, visitedUpTo, hf, List.append_eq]
      simp [ih h]

theorem searchOrder_node (i : Nat) (j : Join) (ps qs : List Repo) :
    searchOrder (.node i j ps qs) = searchOrderList ps := rfl

theorem searchOrderList_cons (p : Repo) (rest : List Repo) :
    searchOrderList (p :: rest) = p.rid :: (searchOrder p ++ searchOrderList rest) := rfl

theorem allLeft_node (i : Nat) (ps qs : List Repo) :
    allLeft (.node i .left ps qs) = allLeftList ps := rfl

theorem allLeftList_cons (p : Repo) (rest : List Repo) :
    allLeftList (p :: rest) = (allLeft p && allLeftList rest) := rfl

theorem doParentsLoopT_left (f : Nat → Option PyObj) :
    ∀ (n : Nat) (ps : List Repo), psizeList ps ≤ n → allLeftList ps = true →
      doParentsLoopT f .left ps [] =
        (firstHit f (searchOrderList ps), visitedUpTo f (searchOrderList ps)) := by
  intro n
  induction n with
  | zero =>
    intro ps h hl
    cases ps with
    | nil => rfl
    | cons p rest => simp [psizeList_cons] at h
  | succ n ih =>
    intro ps h hl
    cases ps with
    | nil => rfl
    | cons p rest =>
      rw [psizeList_cons] at h
      rw [allLeftList_cons, Bool.and_eq_true] at hl
      have hrest : psizeList rest ≤ n := by omega
      obtain ⟨i, j2, pps, qs⟩ := p
      have hj2 : j2 = Join.left := by
        cases j2 with
        | left => rfl
        | outer => simp [allLeft] at hl
      subst hj2
      have hpps : psizeList pps ≤ n := by rw [psize_node] at h; omega
      have hpT : doParentsT f (.node i .left pps qs) =
          (firstHit f (searchOrderList pps), visitedUpTo f (searchOrderList pps)) := by
        rw [doParentsT_node]
        exact ih pps hpps (by rw [allLeft_node] at hl; exact hl.1)
      rw [searchOrderList_cons, searchOrder_node]
      cases hf : f i with
      | some res =>
        rw [doParentsLoopT_cons_hit_left f _ rest [] res (by simp only [Repo.rid, hf])]
        simp only [Repo.rid, firstHit, visitedUpTo, hf]
      | none =>
        cases hfirst : firstHit f (searchOrderList pps) with
        | some res =>
          have h2 : (doParentsT f (Repo.node i Join.left pps qs)).1 = some res := by
            rw [hpT]; exact hfirst
          rw [doParentsLoopT_cons_rec_left f _ rest [] res (by simp only [Repo.rid, hf]) h2, hpT]
          have hfa : firstHit f (searchOrderList pps ++ searchOrderList rest) = some res := by
            rw [firstHit_append, hfirst]
          have hva : visitedUpTo f (searchOrderList pps ++ searchOrderList rest) =
              visitedUpTo f (searchOrderList pps) :=
            visitedUpTo_append_some f _ _ res hfirst
          simp only [Repo.rid, firstHit, visitedUpTo, hf, hfa, hva]
        | none =>
          have h2 : (doParentsT f (Repo.node i Join.left pps qs)).1 = none := by
            rw [hpT]; exact hfirst
          rw [doParentsLoopT_cons_none f .left _ rest [] (by simp only [Repo.rid, hf]) h2, hpT,
              ih rest hrest hl.2]
          have hfa : firstHit f (searchOrderList pps ++ searchOrderList rest) =
              firstHit f (searchOrderList rest) := by
            rw [firstHit_append, hfirst]
          have hva : visitedUpTo f (searchOrderList pps ++ searchOrderList rest) =
              searchOrderList pps ++ visitedUpTo f (searchOrderList rest) :=
            visitedUpTo_append_none f _ _ hfirst
          simp only [Repo.rid, firstHit, visitedUpTo, hf, hfa, hva,
                     visitedUpTo_of_none f _ hfirst]

end DafPersistence

namespace DafPersistence

theorem doParentsLoopT_trace_subset (f : Nat → Option PyObj) :
    ∀ (n : Nat) (j : Join) (ps : List Repo) (ret : List PyObj), psizeList ps ≤ n →
      ∀ x ∈ (doParentsLoopT f j ps ret).2, x ∈ searchOrderList ps := by
  intro n
  induction n with
  | zero =>
    intro j ps ret h
    cases ps with
    | nil => intro x hx; simp [doParentsLoopT_nil] at hx
    | cons p rest => simp [psizeList_cons] at h
  | succ n ih =>
    intro j ps ret h
    cases ps with
    | nil => intro x hx; simp [doParentsLoopT_nil] at hx
    | cons p rest =>
      rw [psizeList_cons] at h
      have hrest : psizeList rest ≤ n := by omega
      have hsub : ∀ x ∈ (doParentsT f p).2, x ∈ searchOrder p := by
        cases p with
        | node i j2 pps qs =>
          rw [doParentsT_node, searchOrder_node]
          apply ih j2 pps []
          rw [psize_node] at h; omega
      rw [searchOrderList_cons]
      cases hf : f p.rid with
      | some res =>
        cases j with
        | left =>
          rw [doParentsLoopT_cons_hit_left f p rest ret res hf]
          intro x hx
          simp only [List.mem_singleton] at hx
          simp [hx]
        | outer =>
          rw [doParentsLoopT_cons_hit_outer f p rest ret res hf]
          intro x hx
          simp only [List.mem_cons] at hx
          rcases hx with hx | hx
          · simp [hx]
          · have := ih .outer rest (ret ++ [res]) hrest x hx
            simp [List.mem_cons, List.mem_append]
            tauto
      | none =>
        cases h2 : (doParentsT f p).1 with
        | some res =>
          cases j with
          | left =>
            rw [doParentsLoopT_cons_rec_left f p rest ret res hf h2]
            intro x hx
            simp only [List.mem_cons] at hx
            rcases hx with hx | hx
            · simp [hx]
            · have := hsub x hx
              simp [List.mem_cons, List.mem_append]
              tauto
          | outer =>
            rw [doParentsLoopT_cons_rec_outer f p rest ret res hf h2]
            intro x hx
            simp only [List.mem_cons, List.mem_append] at hx
            rcases hx with hx | hx | hx
            · simp [hx]
            · have := hsub x hx
              simp [List.mem_cons, List.mem_append]
              tauto
            · have := ih .outer rest (ret ++ [res]) hrest x hx
              simp [List.mem_cons, List.mem_append]
              tauto
        | none =>
          rw [doParentsLoopT_cons_none f j p rest ret hf h2]
          intro x hx
          simp only [List.mem_cons, List.mem_append] at hx
          rcases hx with hx | hx | hx
          · simp [hx]
          · have := hsub x hx
            simp [List.mem_cons, List.mem_append]
            tauto
          · have := ih j rest ret hrest x hx
            simp [List.mem_cons, List.mem_append]
            tauto

theorem doParentsT_trace_subset (f : Nat → Option PyObj) (r : Repo) :
    ∀ x ∈ (doParentsT f r).2, x ∈ searchOrder r := by
  cases r with
  | node i j ps qs =>
    rw [doParentsT_node, searchOrder_node]
    exact doParentsLoopT_trace_subset f (psizeList ps) j ps [] (Nat.le_refl _)

end DafPersistence

namespace DafPersistence

/-- The outcome of one top-level parent branch of an outer-join search:
the operation on the parent itself, or, when that is None, the full
recursive parent search below it. -/
def branchResult (f : Nat → Option PyObj) (p : Repo) : Option PyObj :=
  match f p.rid with
  | some res => some res
  | none => doParents f p

/-- The evaluation trace of an outer-join search: each top-level parent is
evaluated; only when its own outcome is None does the search descend into
its ancestors. -/
def branchVisits (f : Nat → Option PyObj) : List Repo → List Nat
  | [] => []
  | p :: rest =>
    (match f p.rid with
     | some _ => [p.rid]
     | none => p.rid :: (doParentsT f p).2) ++ branchVisits f rest

theorem doParentsLoopT_outer (f : Nat → Option PyObj) (ps : List Repo) :
    ∀ ret : List PyObj,
      doParentsLoopT f .outer ps ret =
        (if (ret ++ ps.filterMap (branchResult f)).isEmpty then none
         else some (.list (ret ++ ps.filterMap (branchResult f))),
         branchVisits f ps) := by
  induction ps with
  | nil =>
    intro ret
    rw [doParentsLoopT_nil]
    simp [branchVisits]
    rw [List.append_nil]
  | cons p rest ih =>
    intro ret
    cases hf : f p.rid with
    | some res =>
      have hb : branchResult f p = some res := by simp [branchResult, hf]
      have hfm : (p :: rest).filterMap (branchResult f) =
          res :: rest.filterMap (branchResult f) := by
        simp [List.filterMap_cons, hb]
      have hbv : branchVisits f (p :: rest) = p.rid :: branchVisits f rest := by
        simp [branchVisits, hf]
      rw [doParentsLoopT_cons_hit_outer f p rest ret res hf, ih (ret ++ [res]), hfm, hbv]
      simp [List.append_assoc]
    | none =>
      have hagree := doParentsT_fst f p
      cases h2 : (doParentsT f p).1 with
      | some res =>
        have hd2 : doParents f p = some res := by rw [← hagree, h2]
        have hb : branchResult f p = some res := by simp [branchResult, hf, hd2]
        have hfm : (p :: rest).filterMap (branchResult f) =
            res :: rest.filterMap (branchResult f) := by
          simp [List.filterMap_cons, hb]
        have hbv : branchVisits f (p :: rest) =
            (p.rid :: (doParentsT f p).2) ++ branchVisits f rest := by
          simp [branchVisits, hf]
        rw [doParentsLoopT_cons_rec_outer f p rest ret res hf h2, ih (ret ++ [res]), hfm, hbv]
        simp [List.append_assoc]
      | none =>
        have hd2 : doParents f p = none := by rw [← hagree, h2]
        have hb : branchResult f p = none := by simp [branchResult, hf, hd2]
        have hfm : (p :: rest).filterMap (branchResult f) =
            rest.filterMap (branchResult f) := by
          simp [List.filterMap_cons, hb]
        have hbv : branchVisits f (p :: rest) =
            (p.rid :: (doParentsT f p).2) ++ branchVisits f rest := by
          simp [branchVisits, hf]
        rw [doParentsLoopT_cons_none f .outer p rest ret hf h2, ih ret, hfm, hbv]
        rfl

theorem length_filterMap_branch (f : Nat → Option PyObj) (ps : List Repo) :
    (ps.filterMap (branchResult f)).length =
      (ps.countP (fun p => (branchResult f p).isSome)) := by
  induction ps with
  | nil => rfl
  | cons p rest ih =>
    cases hb : branchResult f p with
    | some res => simp [List.filterMap_cons, hb, List.countP_cons, ih]
    | none => simp [List.filterMap_cons, hb, List.countP_cons, ih]

end DafPersistence

namespace DafPersistence

/-- Flattening combination of doSelfAndPeers: for each addressed node in
order, a None outcome contributes nothing, a sequence outcome contributes
its elements, any other outcome contributes itself as one element. -/
def flattenResults (f : Nat → Option PyObj) : List Nat → List PyObj
  | [] => []
  | i :: rest =>
    (match f i with
     | none => []
     | some (.list xs) => xs
     | some v => [v]) ++ flattenResults f rest

theorem foldl_accumResult (f : Nat → Option PyObj) (ids : List Nat) :
    ∀ acc : List PyObj,
      ids.foldl (fun ret i => accumResult ret (f i)) acc = acc ++ flattenResults f ids := by
  induction ids with
  | nil => intro acc; simp [flattenResults]
  | cons i rest ih =>
    intro acc
    simp only [List.foldl_cons, flattenResults]
    rw [ih]
    cases hf : f i with
    | none => simp [accumResult, hf]
    | some v => cases v <;> simp [accumResult, hf]

/-- C1 helper input: a three-parent left-join repository; only the branch of
the second declared parent yields a result, the third parent is declared
after the matching branch. -/
def repoC1 : Repo :=
  .node 0 .left [.node 1 .left [] [], .node 2 .left [] [], .node 3 .left [] []] []

/-- C1 helper operation: only node 2 yields a non-None outcome. -/
def fC1 : Nat → Option PyObj := fun i => if i = 2 then some (.val 9) else none

/-- C1: for a repository whose parentJoin is left (as are all the nodes of
its parent graph), doParents returns the first non-None outcome of the
operation along the depth-first declared candidate order searchOrder (None
when every candidate yields None), and the operation is evaluated exactly
on the candidates up to and including the first match, in that order:
no candidate declared after the matching branch is evaluated. -/
theorem doParents_left_first_nonNull (f : Nat → Option PyObj) (r : Repo)
    (h : allLeft r = true) :
    doParents f r = firstHit f (searchOrder r) ∧
    (doParentsT f r).2 = visitedUpTo f (searchOrder r) := by
  cases r with
  | node i j ps qs =>
    have hj : j = .left := by
      cases j with
      | left => rfl
      | outer => simp [allLeft] at h
    subst hj
    rw [allLeft_node] at h
    have hmain := doParentsLoopT_left f (psizeList ps) ps (Nat.le_refl _) h
    constructor
    · rw [doParents_node, searchOrder_node,
          ← doParentsLoopT_fst f (psizeList ps) .left ps [] (Nat.le_refl _), hmain]
    · rw [doParentsT_node, searchOrder_node, hmain]

/-- Witness for C1 at a concrete repository: the search returns the value of
node 2 and evaluates the operation exactly on nodes 1 and 2, never on the
later-declared node 3. -/
theorem doParents_left_first_nonNull_check :
    allLeft repoC1 = true ∧
    (doParents fC1 repoC1 = firstHit fC1 (searchOrder repoC1) ∧
     (doParentsT fC1 repoC1).2 = visitedUpTo fC1 (searchOrder repoC1)) ∧
    doParents fC1 repoC1 = some (.val 9) ∧
    (doParentsT fC1 repoC1).2 = [1, 2] :=
  ⟨rfl, doParents_left_first_nonNull fC1 repoC1 rfl, rfl, rfl⟩

/-- C2: for a repository whose parentJoin is outer, doParents returns the
list, in declared parent order, of the outcomes of the yielding top-level
branches (branchResult), None when no branch yields; the number of elements
equals the number of yielding top-level branches; and the evaluation trace
is branchVisits: every top-level parent is evaluated in declared order, and
the search descends into a parent's ancestors only when the parent itself
returned None. -/
theorem doParents_outer_collects (f : Nat → Option PyObj) (i : Nat) (ps qs : List Repo) :
    doParents f (.node i .outer ps qs) =
      (if (ps.filterMap (branchResult f)).isEmpty then none
       else some (.list (ps.filterMap (branchResult f)))) ∧
    (ps.filterMap (branchResult f)).length =
      ps.countP (fun p => (branchResult f p).isSome) ∧
    (doParentsT f (.node i .outer ps qs)).2 = branchVisits f ps := by
  have hmain := doParentsLoopT_outer f ps []
  refine ⟨?_, length_filterMap_branch f ps, ?_⟩
  · rw [doParents_node,
        ← doParentsLoopT_fst f (psizeList ps) .outer ps [] (Nat.le_refl _), hmain]
    simp
  · rw [doParentsT_node, hmain]

/-- C3 helper operation: the self node 0 returns a three-element sequence,
every other node (the two peers) returns None. -/
def fC3 : Nat → Option PyObj :=
  fun i => if i = 0 then some (.list [.val 10, .val 11, .val 12]) else none

/-- C3: doSelfAndPeers evaluates the operation on self first and then on
each peer in declared order (its evaluation trace is selfAndPeersIds);
sequence results are flattened element-wise and other results appended
whole (flattenResults); an empty accumulator gives None, not an empty
collection.  In particular with no peers and a None self-result it returns
None, and with a three-element sequence self-result and two peers
returning None it returns exactly those three elements. -/
theorem doSelfAndPeers_spec (f : Nat → Option PyObj) (i : Nat) (j : Join) (ps qs : List Repo) :
    (doSelfAndPeers f (.node i j ps qs) =
       (if (flattenResults f (i :: qs.map Repo.rid)).isEmpty then none
        else some (.list (flattenResults f (i :: qs.map Repo.rid))))) ∧
    (doSelfAndPeersT f (.node i j ps qs)).2 = i :: qs.map Repo.rid ∧
    doSelfAndPeers (fun _ => none) (.node 0 .left [] []) = none ∧
    doSelfAndPeers fC3 (.node 0 .left [] [.node 1 .left [] [], .node 2 .left [] []]) =
      some (.list [.val 10, .val 11, .val 12]) := by
  refine ⟨?_, rfl, rfl, rfl⟩
  have hids : selfAndPeersIds (Repo.node i j ps qs) = i :: qs.map Repo.rid := rfl
  unfold doSelfAndPeers
  rw [hids, foldl_accumResult f (i :: qs.map Repo.rid) []]
  rfl

/-- C4 counterexample input: a single repository with no parents and no
peers whose own operation outcome is non-None. -/
def fC4 : Nat → Option PyObj := fun i => if i = 0 then some (.val 3) else none

/-- C4 counterexample: with the write flag absent (a read), map performs the
parent search, which never evaluates the operation on self: on a
repository with no parents whose own operation yields a location, the read
returns None and the operation is evaluated on no node at all.  This
refutes the part of the claim saying reads address self and its
ancestors. -/
theorem mapOp_read_ignores_self :
    fC4 0 = some (.val 3) ∧
    Repo.mapOp none fC4 (.node 0 .left [] []) = none ∧
    (Repo.mapOpT none fC4 (.node 0 .left [] [])).2 = [] :=
  ⟨rfl, rfl, rfl⟩

/-- C4 (amended): when the write flag is present and True, map executes the
self-and-peers fan-out, whose evaluation trace is exactly self followed by
the declared peers; otherwise it executes the parent search, whose
evaluation trace lies entirely within the depth-first parent candidates
(so reads address ancestors only, never the operation on self); no single
call mixes the two traversal kinds, and the instrumented dispatch agrees
with Repository.map. -/
theorem mapOp_dispatch (kwWrite : Option Bool) (f : Nat → Option PyObj) (r : Repo) :
    (Repo.mapOpT (some true) f r = (doSelfAndPeers f r, r.rid :: r.peers.map Repo.rid)) ∧
    (kwWrite ≠ some true → Repo.mapOpT kwWrite f r = doParentsT f r) ∧
    (kwWrite ≠ some true → ∀ x ∈ (Repo.mapOpT kwWrite f r).2, x ∈ searchOrder r) ∧
    Repo.mapOp kwWrite f r = (Repo.mapOpT kwWrite f r).1 := by
  have hparents : ∀ h : kwWrite ≠ some true, Repo.mapOpT kwWrite f r = doParentsT f r := by
    intro h
    cases kwWrite with
    | none => rfl
    | some b =>
      cases b with
      | false => rfl
      | true => exact absurd rfl h
  refine ⟨rfl, hparents, ?_, ?_⟩
  · intro h x hx
    rw [hparents h] at hx
    exact doParentsT_trace_subset f r x hx
  · cases kwWrite with
    | none => exact (doParentsT_fst f r).symm
    | some b =>
      cases b with
      | false => exact (doParentsT_fst f r).symm
      | true => rfl

/-- Witness for C4 (amended) at a concrete input: a read call (absent write
flag) on a repository with one parent; the dispatch is the parent search,
its trace stays within the parent candidates, and the write dispatch is
the self-and-peers fan-out. -/
theorem mapOp_dispatch_check :
    (Repo.mapOpT (some true) fC4 (.node 0 .left [.node 1 .left [] []] []) =
      (doSelfAndPeers fC4 (.node 0 .left [.node 1 .left [] []] []), [0])) ∧
    (Repo.mapOpT none fC4 (.node 0 .left [.node 1 .left [] []] []) =
      doParentsT fC4 (.node 0 .left [.node 1 .left [] []] [])) ∧
    (∀ x ∈ (Repo.mapOpT none fC4 (.node 0 .left [.node 1 .left [] []] [])).2,
      x ∈ searchOrder (.node 0 .left [.node 1 .left [] []] [])) ∧
    Repo.mapOp none fC4 (.node 0 .left [.node 1 .left [] []] []) =
      (Repo.mapOpT none fC4 (.node 0 .left [.node 1 .left [] []] [])).1 := by
  have h := mapOp_dispatch none fC4 (.node 0 .left [.node 1 .left [] []] [])
  exact ⟨h.1, h.2.1 (by simp), h.2.2.1 (by simp), h.2.2.2⟩

end DafPersistence

namespace DafPersistence

/-- Python exceptions raised by the embedded code, one constructor per
distinct raise site kind.  The RuntimeError raise sites of cfg.py and
posixStorage.py are the ConfigurationError / NotFoundError of the
documented error taxonomy; attributeError, keyError, typeError and
indexError are the built-in exceptions Python raises implicitly. -/
inductive PyErr where
  | attributeError
  | keyError (k : String)
  | typeError
  | indexError
  | recursionLimit
  | missingArgument (arg : String)
  | notImplementedYaml
  | ioError (path : String)
  | noSuchPickleFile (path : String)
  | noSuchFitsCatalogFile (path : String)
  | noSuchConfigFile (path : String)
deriving DecidableEq

/-- First-match lookup in an association list: the shallow embedding of a
Python dict read m[k] (None-free: absence is Option.none). -/
def getK {V : Type} : List (String × V) → String → Option V
  | [], _ => none
  | (k, v) :: rest, key => if k = key then some v else getK rest key

/-- Update of an association list: the shallow embedding of a Python dict
write m[k] = v; overwrites the first binding of k in place, appends a new
binding when k is absent. -/
def setK {V : Type} : List (String × V) → String → V → List (String × V)
  | [], key, v => [(key, v)]
  | (k, w) :: rest, key, v =>
    if k = key then (k, v) :: rest else (k, w) :: setK rest key v

theorem getK_setK_self {V : Type} (m : List (String × V)) (k : String) (v : V) :
    getK (setK m k v) k = some v := by
  induction m with
  | nil => simp [getK, setK]
  | cons e rest ih =>
    obtain ⟨k0, w⟩ := e
    by_cases h : k0 = k
    · simp [getK, setK, h]
    · simp [getK, setK, h, ih]

theorem getK_setK_ne {V : Type} (m : List (String × V)) (k k2 : String) (v : V)
    (h : k2 ≠ k) : getK (setK m k v) k2 = getK m k2 := by
  induction m with
  | nil =>
    simp only [setK, getK]
    rw [if_neg (fun hh => h hh.symm)]
  | cons e rest ih =>
    obtain ⟨k0, w⟩ := e
    by_cases h0 : k0 = k
    · subst h0
      simp only [setK, if_pos rfl, getK]
      rw [if_neg (fun hh => h hh.symm), if_neg (fun hh => h hh.symm)]
    · simp only [setK, if_neg h0, getK]
      by_cases h2 : k0 = k2
      · rw [if_pos h2, if_pos h2]
      · rw [if_neg h2, if_neg h2, ih]

/-- The Python values flowing through Repository.makeFromCfg: None, a
string, the Repository class itself, an external class (Access, a storage
or mapper class), an opaque live external instance, a sequence, a
configuration mapping, and a live Repository instance holding the
constructor fields of Repository.__init__. -/
inductive MVal where
  | pynone
  | str (s : String)
  | clsRepository
  | extCls (name : String)
  | extObj (name : String) (tag : Nat)
  | list (xs : List MVal)
  | dict (entries : List (String × MVal))
  | repo (mapper access parents peers rid parentJoin : MVal)

/-- Python test v is None. -/
def MVal.isNone : MVal → Bool
  | .pynone => true
  | _ => false

def kAccess : String := "access"

def kMapper : String := "mapper"

def kParents : String := "parents"

def kPeers : String := "peers"

def kParentJoin : String := "parentJoin"

def kId : String := "id"

def kRepository : String := "repository"

def kRoot : String := "root"

/-- The component materializers Repository.makeFromCfg delegates to whose
classes are outside the embedded source files (Access.makeFromCfg,
access.mapperClass, mapper.makeFromCfg, and the constructor of a
repository class other than Repository).  Modelled from the spec: section
4.1 treats them as external collaborators that are materialized
recursively before the repository is constructed, so they are opaque
parameters of the embedding; each receives the configuration state the
source passes it. -/
structure Ext where
  accessMake : MVal → MVal → MVal
  mapperClassOf : MVal → MVal
  mapperMake : MVal → MVal → MVal
  construct : String → List (String × MVal) → MVal

def sLeft : String := "left"

def sOuter : String := "outer"

/-- Python membership parentJoin in Repository._supportedParentJoin:
true exactly for the strings left and outer. -/
def pjSupported : MVal → Bool
  | .str s => s = sLeft || s = sOuter
  | _ => false

/-- Repository.__init__ turns parents=None and peers=None into the empty
sequence. -/
def noneToEmptyList : MVal → MVal
  | .pynone => .list []
  | v => v

/-- Embeds Repository.__init__ (repository.py lines 157-177) called with
the keyword arguments args (absent parameters take the declared
defaults).  When parentJoin is not a supported value the source raises:
the raise statement builds its message from self._parentJoin, an
attribute assigned only later in the body, so the exception that actually
escapes is AttributeError (the intended RuntimeError is never
constructed). -/
def repositoryInit (args : List (String × MVal)) : Except PyErr MVal :=
  let pj := (getK args kParentJoin).getD (MVal.str sLeft)
  if pjSupported pj then
    .ok (.repo ((getK args kMapper).getD .pynone)
               ((getK args kAccess).getD .pynone)
               (noneToEmptyList ((getK args kParents).getD .pynone))
               (noneToEmptyList ((getK args kPeers).getD .pynone))
               ((getK args kId).getD .pynone)
               pj)
  else
    .error .attributeError

/-- The wrapping of cfg[parents] (and cfg[peers]) in Repository.makeFromCfg:
a sequence is used as is (a tuple is copied to a list), any other value -
in particular a single configuration dict - becomes a one-element list. -/
def listify : MVal → List MVal
  | .list xs => xs
  | v => [v]

/-- Builds the optional args entry for a configuration key that
makeFromCfg copies into the constructor arguments when present. -/
def optEntry (key : String) : Option MVal → List (String × MVal)
  | some v => [(key, v)]
  | none => []

/-- The loop of Repository.makeFromCfg over the wrapped parents (or peers)
list: every element is replaced by the result of the recursive
materialization. -/
def makeEach (mk : MVal → Except PyErr (MVal × MVal)) : List MVal → Except PyErr (List MVal)
  | [] => .ok []
  | x :: rest =>
    match mk x with
    | .error e => .error e
    | .ok pr =>
      match makeEach mk rest with
      | .error e => .error e
      | .ok rs => .ok (pr.2 :: rs)

/-- The access block of Repository.makeFromCfg: when the key access is
present and not None, cfg[access] is overwritten with
cfg[access].makeFromCfg(cfg). -/
def accessStep (ext : Ext) (m0 : List (String × MVal)) : List (String × MVal) :=
  match getK m0 kAccess with
  | none => m0
  | some a =>
    if a.isNone then m0
    else setK m0 kAccess (ext.accessMake a (.dict m0))

/-- The tail of the mapper block: if cfg[mapper] is not None it is
overwritten with cfg[mapper].makeFromCfg(cfg). -/
def mapperFinish (ext : Ext) (m2 : List (String × MVal)) : List (String × MVal) :=
  match getK m2 kMapper with
  | some mp =>
    if mp.isNone then m2
    else setK m2 kMapper (ext.mapperMake mp (.dict m2))
  | none => m2

/-- The mapper block of Repository.makeFromCfg: when the key mapper is
present: a None mapper with a non-None access is replaced by
cfg[access].mapperClass() (reading cfg[access] raises KeyError when the
key is absent); then a non-None mapper is materialized in place. -/
def mapperStep (ext : Ext) (m1 : List (String × MVal)) : Except PyErr (List (String × MVal)) :=
  match getK m1 kMapper with
  | none => .ok m1
  | some mp =>
    if mp.isNone then
      match getK m1 kAccess with
      | none => .error (.keyError kAccess)
      | some a =>
        if a.isNone then .ok (mapperFinish ext m1)
        else .ok (mapperFinish ext (setK m1 kMapper (ext.mapperClassOf a)))
    else .ok (mapperFinish ext m1)

/-- The parents (or peers) block of Repository.makeFromCfg for a given key:
when present, the value is wrapped into a list, every element is
materialized in place, and the updated list is both stored back in the
cfg and copied into the constructor arguments. -/
def relativesStep (mk : MVal → Except PyErr (MVal × MVal)) (key : String)
    (m : List (String × MVal)) : Except PyErr (List (String × MVal) × Option MVal) :=
  match getK m key with
  | none => .ok (m, none)
  | some pv =>
    match makeEach mk (listify pv) with
    | .error e => .error e
    | .ok rs => .ok (setK m key (.list rs), some (.list rs))

/-- Embeds Repository.makeFromCfg (repository.py lines 91-154).  The Nat
argument is fuel standing for the Python recursion limit (every finite
configuration succeeds under enough fuel); the result pairs the final
state of the input configuration value with the returned value
cfg[repository].  Python mutates the configuration dict in place; the
embedding threads that state explicitly.  A non-dict input is returned
unchanged.  A string repository raises (the source executes raise
NotImplemented(...), and calling NotImplemented is a TypeError); a class
repository is constructed from the collected arguments, Repository itself
through repositoryInit, any external class through ext.construct; any
other value is returned as is. -/
def makeFromCfg (ext : Ext) : Nat → MVal → Except PyErr (MVal × MVal)
  | 0, _ => .error .recursionLimit
  | n + 1, v =>
    match v with
    | .dict m0 =>
      let m1 := accessStep ext m0
      let args1 := optEntry kAccess (getK m1 kAccess)
      match mapperStep ext m1 with
      | .error e => .error e
      | .ok m3 =>
        let args2 := args1 ++ optEntry kMapper (getK m3 kMapper)
        match relativesStep (fun x => makeFromCfg ext n x) kParents m3 with
        | .error e => .error e
        | .ok (m4, pv) =>
          let args3 := args2 ++ optEntry kParents pv
          match relativesStep (fun x => makeFromCfg ext n x) kPeers m4 with
          | .error e => .error e
          | .ok (m5, qv) =>
            let args4 := args3 ++ optEntry kPeers qv
            let args5 := args4 ++ optEntry kParentJoin (getK m5 kParentJoin)
            let args6 := args5 ++ optEntry kId (getK m5 kId)
            match getK m5 kRepository with
            | none => .error (.keyError kRepository)
            | some rv =>
              match rv with
              | .str _ => .error .typeError
              | .clsRepository =>
                match repositoryInit args6 with
                | .error e => .error e
                | .ok inst => .ok (.dict (setK m5 kRepository inst), inst)
              | .extCls name =>
                let inst := ext.construct name args6
                .ok (.dict (setK m5 kRepository inst), inst)
              | other => .ok (.dict m5, other)
    | other => .ok (other, other)

end DafPersistence

namespace DafPersistence

/-- C7 failing input: a configuration whose parentJoin is the unrecognized
string full. -/
def sFull : String := "full"

def cfgBadJoin : MVal :=
  .dict [(kRepository, MVal.clsRepository), (kParentJoin, MVal.str sFull)]

/-- C7: materializing a RepoConfig whose parentJoin is not one of the two
recognized values fails at materialization time, but the exception is
AttributeError, not the configuration error the claim names: the
unsupported-join raise statement in Repository.__init__ formats its
message from self._parentJoin before that attribute has been assigned
(and feeds two values to a single placeholder), so the intended
RuntimeError is never constructed.  The theorem evaluates the
materializer at the failing input. -/
theorem makeFromCfg_badJoin (ext : Ext) (n : Nat) :
    makeFromCfg ext (n + 1) cfgBadJoin = .error .attributeError := rfl

end DafPersistence

namespace DafPersistence

/-- C9 configuration shape: a dict config carrying the Repository class and
declarative access, mapper, a single parent config and a single peer
config. -/
def cfgC9 (a mp : MVal) (pe qe : List (String × MVal)) : List (String × MVal) :=
  [(kRepository, MVal.clsRepository), (kAccess, a), (kMapper, mp),
   (kParents, MVal.dict pe), (kPeers, MVal.dict qe)]

/-- The access object materialized for the C9 shape; the external
materializer receives the configuration state of that moment. -/
def accC9 (ext : Ext) (a mp : MVal) (pe qe : List (String × MVal)) : MVal :=
  ext.accessMake a (.dict (cfgC9 a mp pe qe))

/-- The configuration state after the access block of the C9 shape. -/
def m1C9 (ext : Ext) (a mp : MVal) (pe qe : List (String × MVal)) : List (String × MVal) :=
  [(kRepository, MVal.clsRepository), (kAccess, accC9 ext a mp pe qe), (kMapper, mp),
   (kParents, MVal.dict pe), (kPeers, MVal.dict qe)]

/-- The mapper object materialized for the C9 shape. -/
def mprC9 (ext : Ext) (a mp : MVal) (pe qe : List (String × MVal)) : MVal :=
  ext.mapperMake mp (.dict (m1C9 ext a mp pe qe))

/-- The live Repository instance constructed for the C9 shape. -/
def instC9 (ext : Ext) (a mp : MVal) (pe qe : List (String × MVal)) (rp rq : MVal) : MVal :=
  .repo (mprC9 ext a mp pe qe) (accC9 ext a mp pe qe)
        (.list [rp]) (.list [rq]) .pynone (MVal.str sLeft)

/-- The final state of the C9 configuration mapping. -/
def mFinalC9 (ext : Ext) (a mp : MVal) (pe qe : List (String × MVal)) (rp rq : MVal) :
    List (String × MVal) :=
  [(kRepository, instC9 ext a mp pe qe rp rq), (kAccess, accC9 ext a mp pe qe),
   (kMapper, mprC9 ext a mp pe qe), (kParents, MVal.list [rp]), (kPeers, MVal.list [rq])]

/-- C9: Repository.makeFromCfg mutates its input configuration mapping: on
a dict config with declarative non-None access and mapper, a single parent
config, a single peer config and the Repository class, the final state of
that same mapping (the embedding threads the in-place dict state
explicitly) has access and mapper overwritten with the materialized
objects, parents and peers replaced by one-element lists holding the
materialized repositories - no longer the single config dicts - and
repository overwritten with the constructed live Repository instance; the
original declarative values are no longer present whenever
materialization changes them (always, for parents, peers and
repository). -/
theorem makeFromCfg_mutates (ext : Ext) (n : Nat) (a mp : MVal)
    (pe qe : List (String × MVal)) (pst qst rp rq : MVal)
    (ha : a.isNone = false) (hmp : mp.isNone = false)
    (hpe : makeFromCfg ext n (.dict pe) = .ok (pst, rp))
    (hqe : makeFromCfg ext n (.dict qe) = .ok (qst, rq)) :
    makeFromCfg ext (n + 1) (.dict (cfgC9 a mp pe qe)) =
      .ok (.dict (mFinalC9 ext a mp pe qe rp rq), instC9 ext a mp pe qe rp rq) ∧
    getK (mFinalC9 ext a mp pe qe rp rq) kAccess = some (accC9 ext a mp pe qe) ∧
    getK (mFinalC9 ext a mp pe qe rp rq) kMapper = some (mprC9 ext a mp pe qe) ∧
    getK (mFinalC9 ext a mp pe qe rp rq) kParents = some (MVal.list [rp]) ∧
    getK (mFinalC9 ext a mp pe qe rp rq) kPeers = some (MVal.list [rq]) ∧
    getK (mFinalC9 ext a mp pe qe rp rq) kRepository = some (instC9 ext a mp pe qe rp rq) ∧
    MVal.list [rp] ≠ MVal.dict pe ∧
    MVal.list [rq] ≠ MVal.dict qe ∧
    instC9 ext a mp pe qe rp rq ≠ MVal.clsRepository ∧
    (accC9 ext a mp pe qe ≠ a →
      getK (mFinalC9 ext a mp pe qe rp rq) kAccess ≠ some a) ∧
    (mprC9 ext a mp pe qe ≠ mp →
      getK (mFinalC9 ext a mp pe qe rp rq) kMapper ≠ some mp) := by
  have hmain : makeFromCfg ext (n + 1) (.dict (cfgC9 a mp pe qe)) =
      .ok (.dict (mFinalC9 ext a mp pe qe rp rq), instC9 ext a mp pe qe rp rq) := by
    simp [cfgC9, makeFromCfg, accessStep, mapperStep, mapperFinish, relativesStep,
          makeEach, listify, optEntry, repositoryInit, pjSupported, noneToEmptyList,
          getK, setK, kAccess, kMapper, kParents, kPeers, kParentJoin, kId, kRepository,
          ha, hmp, hpe, hqe, mFinalC9, instC9, mprC9, m1C9, accC9]
  have hlp : MVal.list [rp] ≠ MVal.dict pe := by intro h; cases h
  have hlq : MVal.list [rq] ≠ MVal.dict qe := by intro h; cases h
  have hinst : instC9 ext a mp pe qe rp rq ≠ MVal.clsRepository := by
    intro h; cases h
  have hacc : accC9 ext a mp pe qe ≠ a →
      getK (mFinalC9 ext a mp pe qe rp rq) kAccess ≠ some a := by
    intro h hg
    have : getK (mFinalC9 ext a mp pe qe rp rq) kAccess = some (accC9 ext a mp pe qe) := rfl
    rw [this] at hg
    exact h (by injection hg)
  have hmpr : mprC9 ext a mp pe qe ≠ mp →
      getK (mFinalC9 ext a mp pe qe rp rq) kMapper ≠ some mp := by
    intro h hg
    have : getK (mFinalC9 ext a mp pe qe rp rq) kMapper = some (mprC9 ext a mp pe qe) := rfl
    rw [this] at hg
    exact h (by injection hg)
  exact ⟨hmain, rfl, rfl, rfl, rfl, rfl, hlp, hlq, hinst, hacc, hmpr⟩

end DafPersistence

namespace DafPersistence

def sAccessCls : String := "Access"

def sMapperCls : String := "Mapper"

/-- Concrete external materializers for checking C9: each produces a fresh
live object distinct from the declarative class value it receives. -/
def extC9 : Ext where
  accessMake := fun _ _ => .extObj sAccessCls 0
  mapperClassOf := fun _ => .extCls sMapperCls
  mapperMake := fun _ _ => .extObj sMapperCls 1
  construct := fun name _ => .extObj name 2

/-- The Repository instance materialized from a configuration carrying only
the repository key: every constructor parameter takes its default. -/
def repoDefault : MVal :=
  .repo .pynone .pynone (.list []) (.list []) .pynone (MVal.str sLeft)

/-- Witness for C9 at a concrete configuration: concrete access and mapper
classes, one parent config and one peer config each carrying only the
Repository class. -/
theorem makeFromCfg_mutates_check :
    makeFromCfg extC9 2
        (.dict (cfgC9 (.extCls sAccessCls) (.extCls sMapperCls)
          [(kRepository, MVal.clsRepository)] [(kRepository, MVal.clsRepository)])) =
      .ok (.dict (mFinalC9 extC9 (.extCls sAccessCls) (.extCls sMapperCls)
                    [(kRepository, MVal.clsRepository)] [(kRepository, MVal.clsRepository)]
                    repoDefault repoDefault),
           instC9 extC9 (.extCls sAccessCls) (.extCls sMapperCls)
             [(kRepository, MVal.clsRepository)] [(kRepository, MVal.clsRepository)]
             repoDefault repoDefault) ∧
    getK (mFinalC9 extC9 (.extCls sAccessCls) (.extCls sMapperCls)
            [(kRepository, MVal.clsRepository)] [(kRepository, MVal.clsRepository)]
            repoDefault repoDefault) kAccess =
      some (accC9 extC9 (.extCls sAccessCls) (.extCls sMapperCls)
              [(kRepository, MVal.clsRepository)] [(kRepository, MVal.clsRepository)]) ∧
    getK (mFinalC9 extC9 (.extCls sAccessCls) (.extCls sMapperCls)
            [(kRepository, MVal.clsRepository)] [(kRepository, MVal.clsRepository)]
            repoDefault repoDefault) kMapper =
      some (mprC9 extC9 (.extCls sAccessCls) (.extCls sMapperCls)
              [(kRepository, MVal.clsRepository)] [(kRepository, MVal.clsRepository)]) ∧
    getK (mFinalC9 extC9 (.extCls sAccessCls) (.extCls sMapperCls)
            [(kRepository, MVal.clsRepository)] [(kRepository, MVal.clsRepository)]
            repoDefault repoDefault) kParents = some (MVal.list [repoDefault]) ∧
    getK (mFinalC9 extC9 (.extCls sAccessCls) (.extCls sMapperCls)
            [(kRepository, MVal.clsRepository)] [(kRepository, MVal.clsRepository)]
            repoDefault repoDefault) kPeers = some (MVal.list [repoDefault]) ∧
    getK (mFinalC9 extC9 (.extCls sAccessCls) (.extCls sMapperCls)
            [(kRepository, MVal.clsRepository)] [(kRepository, MVal.clsRepository)]
            repoDefault repoDefault) kRepository =
      some (instC9 extC9 (.extCls sAccessCls) (.extCls sMapperCls)
              [(kRepository, MVal.clsRepository)] [(kRepository, MVal.clsRepository)]
              repoDefault repoDefault) ∧
    MVal.list [repoDefault] ≠ MVal.dict [(kRepository, MVal.clsRepository)] ∧
    MVal.list [repoDefault] ≠ MVal.dict [(kRepository, MVal.clsRepository)] ∧
    instC9 extC9 (.extCls sAccessCls) (.extCls sMapperCls)
        [(kRepository, MVal.clsRepository)] [(kRepository, MVal.clsRepository)]
        repoDefault repoDefault ≠ MVal.clsRepository ∧
    (accC9 extC9 (.extCls sAccessCls) (.extCls sMapperCls)
        [(kRepository, MVal.clsRepository)] [(kRepository, MVal.clsRepository)] ≠
        MVal.extCls sAccessCls →
      getK (mFinalC9 extC9 (.extCls sAccessCls) (.extCls sMapperCls)
              [(kRepository, MVal.clsRepository)] [(kRepository, MVal.clsRepository)]
              repoDefault repoDefault) kAccess ≠ some (MVal.extCls sAccessCls)) ∧
    (mprC9 extC9 (.extCls sAccessCls) (.extCls sMapperCls)
        [(kRepository, MVal.clsRepository)] [(kRepository, MVal.clsRepository)] ≠
        MVal.extCls sMapperCls →
      getK (mFinalC9 extC9 (.extCls sAccessCls) (.extCls sMapperCls)
              [(kRepository, MVal.clsRepository)] [(kRepository, MVal.clsRepository)]
              repoDefault repoDefault) kMapper ≠ some (MVal.extCls sMapperCls)) :=
  makeFromCfg_mutates extC9 1 (.extCls sAccessCls) (.extCls sMapperCls)
    [(kRepository, MVal.clsRepository)] [(kRepository, MVal.clsRepository)]
    (.dict [(kRepository, repoDefault)]) (.dict [(kRepository, repoDefault)])
    repoDefault repoDefault rfl rfl rfl rfl

end DafPersistence

namespace DafPersistence

def sYamlStorage : String := "YamlStorage"

def sSlash : String := "/"

/-- os.path.dirname for slash-separated relative paths: everything before
the last separator, empty for a bare filename. -/
def dirname (path : String) : String :=
  let parts := path.splitOn sSlash
  if parts.length ≤ 1 then "" else String.intercalate sSlash parts.dropLast

/-- Embeds RepositoryCfg.butlerWrite (repository.py lines 53-63): only
YamlStorage locations are supported (anything else raises
NotImplementedError); the object is serialized (yaml.dump) to every
location of the ButlerLocation.  The filesystem is an association list
from path to stored document; LogicalLocation template substitution is
not among the embedded sources, so the location string itself is the file
path, as the persisted-descriptor section of the specification describes.
No root field is added to the written document. -/
def butlerWrite (obj : MVal) (storageName : String) (locations : List String)
    (fs : List (String × MVal)) : Except PyErr (List (String × MVal)) :=
  if storageName = sYamlStorage then
    .ok (locations.foldl (fun acc l => setK acc l obj) fs)
  else .error .notImplementedYaml

/-- The location loop of RepositoryCfg.butlerRead: each location is opened
(IOError when the file is absent), parsed, and its root entry is set to
the directory portion of that location before it is appended to the
result list. -/
def butlerReadLoop (fs : List (String × MVal)) : List String → Except PyErr (List MVal)
  | [] => .ok []
  | l :: rest =>
    match getK fs l with
    | none => .error (.ioError l)
    | some doc =>
      match doc with
      | .dict es =>
        match butlerReadLoop fs rest with
        | .error e => .error e
        | .ok more => .ok (.dict (setK es kRoot (.str (dirname l))) :: more)
      | _ => .error .typeError

/-- Embeds RepositoryCfg.butlerRead (repository.py lines 40-51): only
YamlStorage is supported; one document per location, each given a root
entry equal to the directory portion of the location it was read from -
the injection happens at read time. -/
def butlerRead (storageName : String) (locations : List String)
    (fs : List (String × MVal)) : Except PyErr (List MVal) :=
  if storageName = sYamlStorage then butlerReadLoop fs locations
  else .error .notImplementedYaml

def sRepoA : String := "repoA"

def locC5 : String := "t/A/repoCfg.yaml"

/-- C5 counterexample: writing a descriptor that carries no root field
stores, at the write location, exactly the serialized RepoConfig and
nothing more - the persisted document contains no derived root field, so
the claimed write-time injection does not happen. -/
theorem butlerWrite_no_root_injection :
    butlerWrite (.dict [(kId, MVal.str sRepoA)]) sYamlStorage [locC5] [] =
      .ok [(locC5, MVal.dict [(kId, MVal.str sRepoA)])] ∧
    getK [(kId, MVal.str sRepoA)] kRoot = none :=
  ⟨rfl, rfl⟩

/-- C5 (amended): butlerWrite persists the serialized RepoConfig unchanged
(no root injection at write time); butlerRead injects the derived root
field, equal to the directory portion of the location, at read time; so
reconstructing a repository configuration from the written descriptor
still yields a configuration whose resolved root equals the original
write directory. -/
theorem butler_write_read_root (es : List (String × MVal)) (L : String)
    (fs : List (String × MVal)) :
    butlerWrite (.dict es) sYamlStorage [L] fs = .ok (setK fs L (.dict es)) ∧
    butlerRead sYamlStorage [L] (setK fs L (.dict es)) =
      .ok [.dict (setK es kRoot (.str (dirname L)))] ∧
    getK (setK es kRoot (.str (dirname L))) kRoot = some (.str (dirname L)) := by
  refine ⟨by simp [butlerWrite], ?_, getK_setK_self es kRoot _⟩
  simp [butlerRead, butlerReadLoop, getK_setK_self]

end DafPersistence

namespace DafPersistence

/-- Python list slicing l[:stop] with a possibly negative stop index. -/
def pySliceTo {A : Type} (xs : List A) (stop : Int) : List A :=
  if stop < 0 then xs.take (((xs.length : Int) + stop).toNat) else xs.take stop.toNat

/-- The result of inspect.getargspec on a Python callable, as far as
CfgHelper.getFuncArgs consumes it: the declared parameter names in order
and the tuple of default values when present - only its length matters,
the last numDefaults parameters being the ones with defaults. -/
structure ArgSpec where
  args : List String
  numDefaults : Option Nat

/-- The requiredArgs computation of CfgHelper.getFuncArgs (cfg.py lines
55-58): all parameters when there are no defaults, otherwise
args[:len(args) - len(defaults)] - the parameters lacking a default
value. -/
def requiredArgs (spec : ArgSpec) : List String :=
  match spec.numDefaults with
  | none => spec.args
  | some k => pySliceTo spec.args ((spec.args.length : Int) - (k : Int))

/-- CfgHelper.defaultArgsToIgnore. -/
def defaultArgsToIgnore : List String := ["self", "cls"]

/-- The parameter loop of CfgHelper.getFuncArgs (cfg.py lines 59-65): an
ignored name is skipped; a name bound in cfg is copied into the result; a
name that is unbound and required raises RuntimeError (Missing
argument). -/
def getFuncArgsLoop {V : Type} (cfg : List (String × V)) (ignoredKeys required : List String) :
    List String → List (String × V) → Except PyErr (List (String × V))
  | [], ret => .ok ret
  | a :: rest, ret =>
    if a ∈ ignoredKeys then getFuncArgsLoop cfg ignoredKeys required rest ret
    else
      match getK cfg a with
      | some v => getFuncArgsLoop cfg ignoredKeys required rest (ret ++ [(a, v)])
      | none =>
        if a ∈ required then .error (.missingArgument a)
        else getFuncArgsLoop cfg ignoredKeys required rest ret

/-- Embeds CfgHelper.getFuncArgs (cfg.py lines 29-66). -/
def getFuncArgs {V : Type} (spec : ArgSpec) (cfg : List (String × V))
    (ignoredKeys : List String) : Except PyErr (List (String × V)) :=
  getFuncArgsLoop cfg ignoredKeys (requiredArgs spec) spec.args []

/-- The first declared parameter that is not ignored, lacks a default
value (is required) and is absent from the configuration mapping - the
parameter whose absence the binder reports. -/
def firstMissingArg {V : Type} (cfg : List (String × V)) (ignoredKeys required : List String) :
    List String → Option String
  | [] => none
  | a :: rest =>
    if a ∉ ignoredKeys ∧ a ∈ required ∧ (getK cfg a).isNone then some a
    else firstMissingArg cfg ignoredKeys required rest

theorem firstMissingArg_isSome {V : Type} (cfg : List (String × V))
    (ig rq : List String) (as : List String) :
    (firstMissingArg cfg ig rq as).isSome = true ↔
      ∃ a, a ∈ as ∧ a ∉ ig ∧ a ∈ rq ∧ getK cfg a = none := by
  induction as with
  | nil => simp [firstMissingArg]
  | cons a rest ih =>
    by_cases h : a ∉ ig ∧ a ∈ rq ∧ (getK cfg a).isNone
    · simp only [firstMissingArg, if_pos h, Option.isSome_some, true_iff]
      exact ⟨a, List.mem_cons_self a rest, h.1, h.2.1, Option.isNone_iff_eq_none.mp h.2.2⟩
    · simp only [firstMissingArg, if_neg h]
      rw [ih]
      constructor
      · rintro ⟨b, hb, hprops⟩
        exact ⟨b, List.mem_cons_of_mem a hb, hprops⟩

      · rintro ⟨b, hmem, hb1, hb2, hb3⟩
        rcases List.mem_cons.mp hmem with hb | hb
        · subst hb
          exact absurd ⟨hb1, hb2, by rw [hb3]; rfl⟩ h
        · exact ⟨b, hb, hb1, hb2, hb3⟩

theorem getFuncArgsLoop_spec {V : Type} (cfg : List (String × V))
    (ig rq : List String) :
    ∀ (as : List String) (ret : List (String × V)),
      getFuncArgsLoop cfg ig rq as ret =
        (match firstMissingArg cfg ig rq as with
         | some a => .error (.missingArgument a)
         | none => .ok (ret ++ as.filterMap (fun a =>
             if a ∈ ig then none
             else (getK cfg a).map (fun v => (a, v))))) := by
  intro as
  induction as with
  | nil => intro ret; simp [getFuncArgsLoop, firstMissingArg]
  | cons a rest ih =>
    intro ret
    by_cases hi : a ∈ ig
    · have hcond : ¬(a ∉ ig ∧ a ∈ rq ∧ (getK cfg a).isNone) := fun hc => hc.1 hi
      simp only [getFuncArgsLoop, if_pos hi, firstMissingArg, if_neg hcond,
                 List.filterMap_cons, ih]
    · cases hg : getK cfg a with
      | some v =>
        have hcond : ¬(a ∉ ig ∧ a ∈ rq ∧ (getK cfg a).isNone) := by
          rintro ⟨_, _, h3⟩
          rw [hg] at h3
          cases h3
        simp only [getFuncArgsLoop, if_neg hi, hg, firstMissingArg, if_neg hcond,
                   List.filterMap_cons]
        rw [ih (ret ++ [(a, v)])]
        cases hfind : firstMissingArg cfg ig rq rest with
        | some b => simp [hfind]
        | none => simp [hfind, hi, hg]
      | none =>
        by_cases hr : a ∈ rq
        · have hcond : a ∉ ig ∧ a ∈ rq ∧ (getK cfg a).isNone := ⟨hi, hr, by rw [hg]; rfl⟩
          simp only [getFuncArgsLoop, if_neg hi, hg, if_pos hr, firstMissingArg]
          simp [hi, hr]
        · have hcond : ¬(a ∉ ig ∧ a ∈ rq ∧ (getK cfg a).isNone) := by
            rintro ⟨_, h2, _⟩
            exact hr h2
          simp only [getFuncArgsLoop, if_neg hi, hg, if_neg hr, firstMissingArg,
                     List.filterMap_cons, ih]
          cases hfind : firstMissingArg cfg ig rq rest with
          | some b => simp [hfind, hr]
          | none => simp [hfind, hi, hg, hr]

/-- C6: the configuration binder returns exactly the submap of the
configuration keyed by the declared parameter names that appear in the
mapping and are not in the ignore-set (in declared order), and it fails
with the Missing-argument RuntimeError - the ConfigurationError of the
documented taxonomy - if and only if some parameter lacking a default
value and not in the ignore-set is absent from the mapping (the
parameter reported is the first such in declared order). -/
theorem getFuncArgs_spec {V : Type} (spec : ArgSpec) (cfg : List (String × V))
    (ignoredKeys : List String) :
    getFuncArgs spec cfg ignoredKeys =
      (match firstMissingArg cfg ignoredKeys (requiredArgs spec) spec.args with
       | some a => .error (.missingArgument a)
       | none => .ok (spec.args.filterMap (fun a =>
           if a ∈ ignoredKeys then none
           else (getK cfg a).map (fun v => (a, v))))) ∧
    ((∃ e, getFuncArgs spec cfg ignoredKeys = .error e) ↔
      ∃ a, a ∈ spec.args ∧ a ∉ ignoredKeys ∧ a ∈ requiredArgs spec ∧ getK cfg a = none) := by
  have hmain := getFuncArgsLoop_spec cfg ignoredKeys (requiredArgs spec) spec.args []
  have hform : getFuncArgs spec cfg ignoredKeys =
      (match firstMissingArg cfg ignoredKeys (requiredArgs spec) spec.args with
       | some a => .error (.missingArgument a)
       | none => .ok (spec.args.filterMap (fun a =>
           if a ∈ ignoredKeys then none
           else (getK cfg a).map (fun v => (a, v))))) := by
    rw [getFuncArgs, hmain]
    cases firstMissingArg cfg ignoredKeys (requiredArgs spec) spec.args with
    | some b => rfl
    | none => simp
  refine ⟨hform, ?_⟩
  rw [hform, ← firstMissingArg_isSome cfg ignoredKeys (requiredArgs spec) spec.args]
  cases hfind : firstMissingArg cfg ignoredKeys (requiredArgs spec) spec.args with
  | some b =>
    simp only [hfind, Option.isSome_some, iff_true]
    exact ⟨.missingArgument b, rfl⟩
  | none =>
    simp only [hfind, Option.isSome_none]
    constructor
    · rintro ⟨e, he⟩
      cases he
    · intro h
      cases h

end DafPersistence

namespace DafPersistence

def sPafStorage : String := "PafStorage"

def sPickleStorage : String := "PickleStorage"

def sFitsCatalogStorage : String := "FitsCatalogStorage"

def sConfigStorage : String := "ConfigStorage"

/-- The data of a ButlerLocation that PosixStorage.write and
PosixStorage.read consume: whether the resolved pythonType has the
butlerRead / butlerWrite self-(de)serialization capability (the hasattr
dispatch), the storage-kind discriminator, the ordered address list, and
the hdu / flags entries of additionalData. -/
structure PLoc where
  hasButlerRead : Bool
  hasButlerWrite : Bool
  storageName : String
  locations : List String
  hdu : Nat
  flags : Nat

/-- An object handled by the reference storage backend: an opaque
persistable object, or the values the per-discriminator readers
construct (a Policy from a Paf or Yaml file, a catalog read with hdu and
flags, a loaded config, a generic persistence-engine retrieval). -/
inductive Item where
  | obj (n : Nat)
  | pafPolicy (path : String)
  | yamlPolicy (path : String)
  | fitsCatalog (path : String) (hdu flags : Nat)
  | configObj (path : String)
  | retrieved (storageName : String) (path : String)

namespace PosixStorage

/-- Embeds PosixStorage.write (posixStorage.py lines 133-189).  When the
target type has butlerWrite the write is delegated to it (external,
abstracted as extBW).  Otherwise every storage branch - Pickle, Config,
FitsCatalog, Fits, and the generic persistence-engine handoff - runs
inside SafeFilename(locations[0]) and so persists exactly one file, at
the first entry of the address list; reading locations[0] of an empty
list raises IndexError.  The filesystem maps each path to the object
stored there; the byte-level codec applied to obj is an external
collaborator, so the stored content is the object itself. -/
def write (extBW : Item → List (String × Item) → List (String × Item)) (loc : PLoc)
    (obj : Item) (fs : List (String × Item)) : Except PyErr (List (String × Item)) :=
  if loc.hasButlerWrite then .ok (extBW obj fs)
  else
    match loc.locations with
    | [] => .error .indexError
    | l0 :: _ => .ok (setK fs l0 obj)

/-- One location of the loop of PosixStorage.read (posixStorage.py lines
219-249): Paf and Yaml construct a Policy from the path without an
existence check; Pickle, FitsCatalog and Config first check
os.path.exists and raise RuntimeError (No such ... file) - the
NotFoundError of the documented taxonomy - when the path is absent;
unpickling returns what was stored; any other discriminator is the
generic persistence-engine retrieval. -/
def readOne (loc : PLoc) (fs : List (String × Item)) (l : String) : Except PyErr Item :=
  if loc.storageName = sPafStorage then .ok (.pafPolicy l)
  else if loc.storageName = sYamlStorage then .ok (.yamlPolicy l)
  else if loc.storageName = sPickleStorage then
    match getK fs l with
    | none => .error (.noSuchPickleFile l)
    | some it => .ok it
  else if loc.storageName = sFitsCatalogStorage then
    if (getK fs l).isSome then .ok (.fitsCatalog l loc.hdu loc.flags)
    else .error (.noSuchFitsCatalogFile l)
  else if loc.storageName = sConfigStorage then
    if (getK fs l).isSome then .ok (.configObj l)
    else .error (.noSuchConfigFile l)
  else .ok (.retrieved loc.storageName l)

/-- The location loop of PosixStorage.read: one item is appended per
address list entry, in order; a raised error aborts the loop. -/
def readLoop (loc : PLoc) (fs : List (String × Item)) : List String → Except PyErr (List Item)
  | [] => .ok []
  | l :: rest =>
    match readOne loc fs l with
    | .error e => .error e
    | .ok item =>
      match readLoop loc fs rest with
      | .error e => .error e
      | .ok more => .ok (item :: more)

/-- Embeds PosixStorage.read (posixStorage.py lines 191-251): a target
type with butlerRead receives the whole read (external, abstracted as
extBR); otherwise the loop visits every entry of the address list. -/
def read (extBR : PLoc → Except PyErr (List Item)) (loc : PLoc)
    (fs : List (String × Item)) : Except PyErr (List Item) :=
  if loc.hasButlerRead then extBR loc
  else readLoop loc fs loc.locations

end PosixStorage

/-- The storage discriminators whose reader requires the resolved path to
exist: Pickle, FitsCatalog and Config (Paf and Yaml do not check, and the
generic retrieval is delegated). -/
def requiresExistence (s : String) : Bool :=
  s = sPickleStorage || s = sFitsCatalogStorage || s = sConfigStorage

/-- The not-found error each existence-requiring discriminator raises. -/
def notFoundFor (s l : String) : PyErr :=
  if s = sPickleStorage then .noSuchPickleFile l
  else if s = sFitsCatalogStorage then .noSuchFitsCatalogFile l
  else .noSuchConfigFile l

/-- The NotFoundError class of the documented error taxonomy: the
No-such-file RuntimeErrors of PosixStorage.read. -/
def isNotFoundErr : PyErr → Bool
  | .noSuchPickleFile _ => true
  | .noSuchFitsCatalogFile _ => true
  | .noSuchConfigFile _ => true
  | _ => false

/-- The first entry of an address list whose path does not exist on the
filesystem. -/
def firstMissing (fs : List (String × Item)) : List String → Option String
  | [] => none
  | l :: rest => if (getK fs l).isSome then firstMissing fs rest else some l

theorem readOne_requires_exists (loc : PLoc) (fs : List (String × Item)) (l : String)
    (hs : requiresExistence loc.storageName = true) :
    ((getK fs l).isSome = false → PosixStorage.readOne loc fs l =
        .error (notFoundFor loc.storageName l)) ∧
    ((getK fs l).isSome = true → ∃ it, PosixStorage.readOne loc fs l = .ok it) := by
  simp only [requiresExistence, Bool.or_eq_true, decide_eq_true_eq] at hs
  rcases hs with (hs | hs) | hs
  · constructor
    · intro hex
      cases hg : getK fs l with
      | none =>
        simp [PosixStorage.readOne, notFoundFor, hs, sPafStorage, sYamlStorage,
              sPickleStorage, hg]
      | some it => rw [hg] at hex; cases hex
    · intro hex
      cases hg : getK fs l with
      | none => rw [hg] at hex; cases hex
      | some it =>
        exact ⟨it, by simp [PosixStorage.readOne, hs, sPafStorage, sYamlStorage,
                            sPickleStorage, hg]⟩
  · constructor
    · intro hex
      simp [PosixStorage.readOne, notFoundFor, hs, sPafStorage, sYamlStorage,
            sPickleStorage, sFitsCatalogStorage, hex]
    · intro hex
      exact ⟨.fitsCatalog l loc.hdu loc.flags, by
        simp [PosixStorage.readOne, hs, sPafStorage, sYamlStorage, sPickleStorage,
              sFitsCatalogStorage, hex]⟩
  · constructor
    · intro hex
      simp [PosixStorage.readOne, notFoundFor, hs, sPafStorage, sYamlStorage,
            sPickleStorage, sFitsCatalogStorage, sConfigStorage, hex]
    · intro hex
      exact ⟨.configObj l, by
        simp [PosixStorage.readOne, hs, sPafStorage, sYamlStorage, sPickleStorage,
              sFitsCatalogStorage, sConfigStorage, hex]⟩

theorem readLoop_missing (loc : PLoc) (fs : List (String × Item))
    (hs : requiresExistence loc.storageName = true) :
    ∀ (ls : List String) (l : String), firstMissing fs ls = some l →
      PosixStorage.readLoop loc fs ls = .error (notFoundFor loc.storageName l) := by
  intro ls
  induction ls with
  | nil => intro l h; cases h
  | cons l0 rest ih =>
    intro l h
    cases hex : (getK fs l0).isSome with
    | false =>
      have h0 : firstMissing fs (l0 :: rest) = some l0 := by
        simp [firstMissing, hex]
      rw [h0] at h
      injection h with h2
      subst h2
      have hone := (readOne_requires_exists loc fs l0 hs).1 hex
      simp [PosixStorage.readLoop, hone]
    | true =>
      have h0 : firstMissing fs (l0 :: rest) = firstMissing fs rest := by
        simp [firstMissing, hex]
      rw [h0] at h
      obtain ⟨it, hit⟩ := (readOne_requires_exists loc fs l0 hs).2 hex
      simp [PosixStorage.readLoop, hit, ih l h]

theorem readLoop_length (loc : PLoc) (fs : List (String × Item)) :
    ∀ (ls : List String) (items : List Item),
      PosixStorage.readLoop loc fs ls = .ok items → items.length = ls.length := by
  intro ls
  induction ls with
  | nil =>
    intro items h
    injection h with h
    subst h
    rfl
  | cons l0 rest ih =>
    intro items h
    simp only [PosixStorage.readLoop] at h
    cases h1 : PosixStorage.readOne loc fs l0 with
    | error e => rw [h1] at h; cases h
    | ok item =>
      rw [h1] at h
      cases h2 : PosixStorage.readLoop loc fs rest with
      | error e => rw [h2] at h; cases h
      | ok more =>
        rw [h2] at h
        injection h with h
        subst h
        simp [ih more h2]

end DafPersistence

namespace DafPersistence

/-- C8: for every storage discriminator that requires the target to exist
(Pickle, FitsCatalog and Config), PosixStorage.read fails, at the first
entry of the address list whose resolved path does not exist, with the
corresponding No-such-file RuntimeError - the NotFoundError of the
documented error taxonomy - provided the target type does not divert the
read through its own butlerRead capability. -/
theorem read_missing_not_found (extBR : PLoc → Except PyErr (List Item)) (loc : PLoc)
    (fs : List (String × Item)) (l : String)
    (hbr : loc.hasButlerRead = false)
    (hs : requiresExistence loc.storageName = true)
    (hm : firstMissing fs loc.locations = some l) :
    PosixStorage.read extBR loc fs = .error (notFoundFor loc.storageName l) ∧
    isNotFoundErr (notFoundFor loc.storageName l) = true := by
  constructor
  · simp only [PosixStorage.read, hbr, Bool.false_eq_true, if_false]
    exact readLoop_missing loc fs hs loc.locations l hm
  · simp only [requiresExistence, Bool.or_eq_true, decide_eq_true_eq] at hs
    rcases hs with (hs | hs) | hs <;>
      simp [notFoundFor, isNotFoundErr, hs, sPickleStorage, sFitsCatalogStorage,
            sConfigStorage]

def pathC8 : String := "r/data.pickle"

/-- Witness for C8 at a concrete input: a PickleStorage location whose
single path is absent from an empty filesystem. -/
theorem read_missing_not_found_check :
    PosixStorage.read (fun _ => .ok []) ⟨false, false, sPickleStorage, [pathC8], 0, 0⟩ [] =
      .error (notFoundFor sPickleStorage pathC8) ∧
    isNotFoundErr (notFoundFor sPickleStorage pathC8) = true ∧
    notFoundFor sPickleStorage pathC8 = .noSuchPickleFile pathC8 := by
  have h := read_missing_not_found (fun _ => .ok [])
    ⟨false, false, sPickleStorage, [pathC8], 0, 0⟩ [] pathC8 rfl rfl rfl
  exact ⟨h.1, h.2, rfl⟩

/-- C10: for a ButlerLocation with several addresses whose target type has
no self-serialization capability, PosixStorage.write persists the object
only to the first entry of the address list (every other path of the
filesystem is untouched), while PosixStorage.read visits every entry and
returns one object per entry; consequently a write followed by a read of
the same multi-address location does not round-trip: on a filesystem
where the later addresses are absent the read raises the No-such-file
error at the first address the write never touched, instead of returning
one object per address. -/
theorem write_first_location_read_every
    (extBW : Item → List (String × Item) → List (String × Item))
    (extBR : PLoc → Except PyErr (List Item))
    (s : String) (hdu flags : Nat) (a : String) (rest : List String) (obj : Item)
    (fs : List (String × Item)) (b : String)
    (hb : firstMissing (setK fs a obj) rest = some b) :
    PosixStorage.write extBW ⟨false, false, s, a :: rest, hdu, flags⟩ obj fs =
      .ok (setK fs a obj) ∧
    (∀ p, p ≠ a → getK (setK fs a obj) p = getK fs p) ∧
    (∀ (loc2 : PLoc) (fs2 : List (String × Item)) (items : List Item),
       loc2.hasButlerRead = false →
       PosixStorage.read extBR loc2 fs2 = .ok items →
       items.length = loc2.locations.length) ∧
    PosixStorage.read extBR ⟨false, false, sPickleStorage, a :: rest, hdu, flags⟩
        (setK fs a obj) = .error (.noSuchPickleFile b) := by
  refine ⟨rfl, ?_, ?_, ?_⟩
  · intro p hp
    exact getK_setK_ne fs a p obj hp
  · intro loc2 fs2 items hbr2 hread
    simp only [PosixStorage.read, hbr2, Bool.false_eq_true, if_false] at hread
    exact readLoop_length loc2 fs2 loc2.locations items hread
  · have hs : requiresExistence
        (PLoc.mk false false sPickleStorage (a :: rest) hdu flags).storageName = true := by
      simp [requiresExistence, sPickleStorage]
    have h1 : PosixStorage.readOne ⟨false, false, sPickleStorage, a :: rest, hdu, flags⟩
        (setK fs a obj) a = .ok obj := by
      simp [PosixStorage.readOne, sPafStorage, sYamlStorage, sPickleStorage,
            getK_setK_self]
    have h2 : PosixStorage.readLoop ⟨false, false, sPickleStorage, a :: rest, hdu, flags⟩
        (setK fs a obj) rest = .error (notFoundFor sPickleStorage b) :=
      readLoop_missing _ _ hs rest b hb
    have hnf : notFoundFor sPickleStorage b = .noSuchPickleFile b := by
      simp [notFoundFor, sPickleStorage]
    simp only [PosixStorage.read, PosixStorage.readLoop, Bool.false_eq_true, if_false,
               h1, h2, hnf]

def pathC10a : String := "d/first.bin"

def pathC10b : String := "d/second.bin"

/-- Witness for C10 at a concrete input: a two-address PickleStorage
location over an empty filesystem; the write stores only the first
address, and the following read fails at the second. -/
theorem write_first_location_read_every_check :
    PosixStorage.write (fun _ fs => fs)
        ⟨false, false, sPickleStorage, [pathC10a, pathC10b], 0, 0⟩ (.obj 5) [] =
      .ok (setK [] pathC10a (.obj 5)) ∧
    (∀ p, p ≠ pathC10a → getK (setK ([] : List (String × Item)) pathC10a (.obj 5)) p =
      getK ([] : List (String × Item)) p) ∧
    (∀ (loc2 : PLoc) (fs2 : List (String × Item)) (items : List Item),
       loc2.hasButlerRead = false →
       PosixStorage.read (fun _ => .ok []) loc2 fs2 = .ok items →
       items.length = loc2.locations.length) ∧
    PosixStorage.read (fun _ => .ok [])
        ⟨false, false, sPickleStorage, [pathC10a, pathC10b], 0, 0⟩
        (setK [] pathC10a (.obj 5)) = .error (.noSuchPickleFile pathC10b) :=
  write_first_location_read_every (fun _ fs => fs) (fun _ => .ok [])
    sPickleStorage 0 0 pathC10a [pathC10b] (.obj 5) [] pathC10b rfl

end DafPersistence
